import Mathlib

/-
Verification development for the scientiajoints geometric measurement engine.

The embedding follows src/geometry.py (Point, Vector3D, Face, Edge) and
src/parser.py (MeasurementsParser.parse_dimensions, get_processed_edges,
get_processed_faces).  Python float arithmetic is modelled by exact real
arithmetic; the math-library functions are modelled by their exact real
counterparts:
  math.atan2 y x  ->  atan2 y x   (the angle of the plane point (x, y))
  math.degrees    ->  rad2deg
  math.radians    ->  deg2rad
  x % y           ->  pymod x y   (floor modulus, sign of the divisor)
Mutation of Vector3D objects (multiply_minus inside azimuth, edge2face) is
modelled by explicit state passing: canonical v is the state of v after a
call to v.azimuth(), and edge2faceRun v is the state of v after v.edge2face().
-/

open Real

namespace ScientiaJoints

/-- Model of Python math.atan2 y x: the angle of the point (x, y) in the
plane, in the interval (-pi, pi], with atan2 0 0 = 0.  Modelled by the
complex argument of x + y*i. -/
noncomputable def atan2 (y x : ℝ) : ℝ := Complex.arg ⟨x, y⟩

/-- Model of Python math.degrees. -/
noncomputable def rad2deg (r : ℝ) : ℝ := r * 180 / π

/-- Model of Python math.radians. -/
noncomputable def deg2rad (d : ℝ) : ℝ := d * π / 180

/-- Model of the Python float modulus x % y: the result has the sign of the
divisor; in exact real arithmetic it is x - y * floor (x / y). -/
noncomputable def pymod (x y : ℝ) : ℝ := x - y * (⌊x / y⌋ : ℝ)

theorem rad2deg_deg2rad (d : ℝ) : rad2deg (deg2rad d) = d := by
  unfold rad2deg deg2rad
  field_simp

theorem rad2deg_zero : rad2deg 0 = 0 := by
  unfold rad2deg
  simp

theorem pymod_nonneg (x : ℝ) {y : ℝ} (hy : 0 < y) : 0 ≤ pymod x y := by
  unfold pymod
  have h1 : (⌊x / y⌋ : ℝ) ≤ x / y := Int.floor_le _
  have h2 : y * (⌊x / y⌋ : ℝ) ≤ y * (x / y) := by
    exact mul_le_mul_of_nonneg_left h1 hy.le
  have h3 : y * (x / y) = x := by field_simp
  linarith

theorem pymod_lt (x : ℝ) {y : ℝ} (hy : 0 < y) : pymod x y < y := by
  unfold pymod
  have h1 : x / y < (⌊x / y⌋ : ℝ) + 1 := Int.lt_floor_add_one _
  have h2 : y * (x / y) < y * ((⌊x / y⌋ : ℝ) + 1) := by
    exact mul_lt_mul_of_pos_left h1 hy
  have h3 : y * (x / y) = x := by field_simp
  nlinarith

theorem pymod_eq_self {x y : ℝ} (h0 : 0 ≤ x) (h1 : x < y) : pymod x y = x := by
  have hy : 0 < y := lt_of_le_of_lt h0 h1
  unfold pymod
  have hfloor : ⌊x / y⌋ = 0 := by
    rw [Int.floor_eq_zero_iff]
    constructor
    · exact div_nonneg h0 hy.le
    · rw [div_lt_one hy]; exact h1
  rw [hfloor]
  simp

theorem pymod_sub_cycle (x : ℝ) {y : ℝ} (hy : y ≠ 0) :
    pymod (x - y) y = pymod x y := by
  unfold pymod
  have hdiv : (x - y) / y = x / y - 1 := by field_simp
  have hfloor : ⌊(x - y) / y⌋ = ⌊x / y⌋ - 1 := by
    rw [hdiv, Int.floor_sub_one]
  rw [hfloor]
  push_cast
  ring

/-- Point with coordinates in 3D space (src/geometry.py, class Point). -/
structure Point where
  x : ℝ
  y : ℝ
  z : ℝ

/-- Point.rotated (src/geometry.py lines 23-30): with r the x-y distance
from the center to self, return Point(r*cos(radians az), r*sin(radians az),
self.z).  The center coordinates are used only for the distance r; they are
not added back to the result. -/
noncomputable def Point.rotated (p center : Point) (azimuth : ℝ) : Point :=
  let length_c_a := Real.sqrt ((center.x - p.x) ^ 2 + (center.y - p.y) ^ 2)
  ⟨length_c_a * Real.cos (deg2rad azimuth),
   length_c_a * Real.sin (deg2rad azimuth), p.z⟩

/-- Vector in 3D space (src/geometry.py, class Vector3D). -/
structure Vector3D where
  x : ℝ
  y : ℝ
  z : ℝ

/-- Vector3D(point1, point2): the two-point constructor, point2 - point1. -/
def Vector3D.ofPoints (point1 point2 : Point) : Vector3D :=
  ⟨point2.x - point1.x, point2.y - point1.y, point2.z - point1.z⟩

/-- Vector3D.multiply_minus: reverse vector direction. -/
def Vector3D.multiplyMinus (v : Vector3D) : Vector3D := ⟨-v.x, -v.y, -v.z⟩

/-- State of a Vector3D after a call to azimuth(): azimuth() negates the
vector in place when its z component is negative (src/geometry.py
lines 76-81). -/
noncomputable def Vector3D.canonical (v : Vector3D) : Vector3D :=
  if v.z < 0 then v.multiplyMinus else v

/-- Return value of Vector3D.azimuth(): degrees(atan2(x, y)) % 360 read
off the possibly negated vector. -/
noncomputable def Vector3D.azimuthVal (v : Vector3D) : ℝ :=
  pymod (rad2deg (atan2 v.canonical.x v.canonical.y)) 360

/-- Vector3D.length: the Euclidean norm. -/
noncomputable def Vector3D.length (v : Vector3D) : ℝ :=
  Real.sqrt (v.x ^ 2 + v.y ^ 2 + v.z ^ 2)

/-- Vector3D.dip: degrees(atan2(sqrt(x^2 + y^2), z)); no canonicalization
of its own (src/geometry.py lines 83-87). -/
noncomputable def Vector3D.dipVal (v : Vector3D) : ℝ :=
  rad2deg (atan2 (Real.sqrt (v.x ^ 2 + v.y ^ 2)) v.z)

/-- Vector3D.degrees_with: degrees(acos(dot / (|a| |b|))).  In exact real
arithmetic the except-branch (returning 0.0) fires exactly when the
division divides by zero, that is when one factor length is zero; the
acos domain error cannot occur for nonzero lengths by Cauchy-Schwarz. -/
noncomputable def Vector3D.degreesWith (a b : Vector3D) : ℝ :=
  let dot := a.x * b.x + a.y * b.y + a.z * b.z
  if a.length * b.length = 0 then 0
  else rad2deg (Real.arccos (dot / (a.length * b.length)))

/-- Vector3D.__mul__: the cross product (src/geometry.py lines 99-104). -/
def Vector3D.cross (a b : Vector3D) : Vector3D :=
  ⟨a.y * b.z - b.y * a.z, -(a.x * b.z - b.x * a.z), a.x * b.y - b.x * a.y⟩

/-- State of a Vector3D after a call to edge2face() (src/geometry.py
lines 64-70): it first reads azimuth() (which canonicalizes the vector in
place), takes the horizontal length of the canonical state, then overwrites
z := -length, x := z * sin(radians azimuth), y := z * cos(radians azimuth). -/
noncomputable def Vector3D.edge2faceRun (v : Vector3D) : Vector3D :=
  let azimuth := v.azimuthVal
  let v1 := v.canonical
  let length := Real.sqrt (v1.x ^ 2 + v1.y ^ 2)
  ⟨-length * Real.sin (deg2rad azimuth),
   -length * Real.cos (deg2rad azimuth), -length⟩

/-- Plane defined by three points (src/geometry.py, class Face).  The ab
field holds the final state of the cross-product vector: the azimuth()
call in the constructor may negate it in place. -/
structure Face where
  point1 : Point
  point2 : Point
  point3 : Point
  center : Point
  ab : Vector3D
  azimuth : ℝ
  dip : ℝ
  area : ℝ
  rotated_azimuth : ℝ
  degree : ℝ

/-- Face.ab_vector: cross product of Vector3D(point2, point1) and
Vector3D(point3, point1). -/
def abVector (point1 point2 point3 : Point) : Vector3D :=
  (Vector3D.ofPoints point2 point1).cross (Vector3D.ofPoints point3 point1)

/-- Face constructor (src/geometry.py lines 111-144): ab is computed by
ab_vector, then azimuth() canonicalizes it in place; dip and area are read
from the canonical state. -/
noncomputable def mkFace (point1 point2 point3 : Point) : Face :=
  let ab0 := abVector point1 point2 point3
  { point1 := point1, point2 := point2, point3 := point3,
    center := ⟨(point1.x + point2.x + point3.x) / 3,
               (point1.y + point2.y + point3.y) / 3,
               (point1.z + point2.z + point3.z) / 3⟩,
    ab := ab0.canonical,
    azimuth := ab0.azimuthVal,
    dip := ab0.canonical.dipVal,
    area := ab0.canonical.length / 2,
    rotated_azimuth := 0,
    degree := (Vector3D.ofPoints point2 point1).degreesWith
      (Vector3D.ofPoints point2 point3) }

/-- Edge defined by two points (src/geometry.py, class Edge).  The a field
holds the final state of the direction vector after edge2face() and the
subsequent azimuth() call. -/
structure Edge where
  point1 : Point
  point2 : Point
  center : Point
  a : Vector3D
  length : ℝ
  azimuth : ℝ
  dip : ℝ
  edge_azimuth : ℝ
  edge_dip : ℝ
  rotated_azimuth : ℝ

/-- Edge constructor (src/geometry.py lines 153-165): a = Vector3D(p1, p2);
length, azimuth, dip are captured (azimuth() canonicalizes a in place, dip
is read from the canonical state); then a.edge2face() mutates a and
edge_azimuth, edge_dip are read from the transformed vector (the
edge_azimuth call may negate it once more). -/
noncomputable def mkEdge (point1 point2 : Point) : Edge :=
  let a0 := Vector3D.ofPoints point1 point2
  let a1 := a0.canonical
  let a2 := a1.edge2faceRun
  let a3 := a2.canonical
  { point1 := point1, point2 := point2,
    center := ⟨(point1.x + point2.x) / 2, (point1.y + point2.y) / 2,
               (point1.z + point2.z) / 2⟩,
    a := a3,
    length := a0.length,
    azimuth := a0.azimuthVal,
    dip := a1.dipVal,
    edge_azimuth := a2.azimuthVal,
    edge_dip := a3.dipVal,
    rotated_azimuth := 0 }

/-- Delta computation shared by get_processed_edges and get_processed_faces
(src/parser.py lines 138-143, 166-171): pre_delta = az_real - az_model;
if negative add 360 once, otherwise take pre_delta % 360. -/
noncomputable def calibrationDelta (az_real az_model : ℝ) : ℝ :=
  if az_real - az_model < 0 then az_real - az_model + 360
  else pymod (az_real - az_model) 360

/-- Per-entity rotated-azimuth computation (src/parser.py lines 150-156,
178-184): rot = raw + delta; subtract 360 when rot >= 360, add 360 when
rot < 0, otherwise keep. -/
noncomputable def correctAzimuth (raw az_real az_model : ℝ) : ℝ :=
  let rot := raw + calibrationDelta az_real az_model
  if 360 ≤ rot then rot - 360 else if rot < 0 then rot + 360 else rot

/-- One loop body of get_processed_edges for a group with at least two
points: build the Edge from the first two points and set its
rotated_azimuth from its azimuth. -/
noncomputable def processedEdge (p0 p1 : Point) (az_real az_model : ℝ) : Edge :=
  let e := mkEdge p0 p1
  { e with rotated_azimuth := correctAzimuth e.azimuth az_real az_model }

/-- MeasurementsParser.get_processed_edges (src/parser.py lines 138-164) on
an explicit list of point groups; the second component counts the logged
warnings for groups with fewer than 2 points. -/
noncomputable def getProcessedEdges :
    List (List Point) → ℝ → ℝ → List Edge × Nat
  | [], _, _ => ([], 0)
  | g :: rest, az_real, az_model =>
    let acc := getProcessedEdges rest az_real az_model
    match g with
    | p0 :: p1 :: _ => (processedEdge p0 p1 az_real az_model :: acc.1, acc.2)
    | _ => (acc.1, acc.2 + 1)

/-- One loop body of get_processed_faces for a group with at least three
points. -/
noncomputable def processedFace (p0 p1 p2 : Point) (az_real az_model : ℝ) :
    Face :=
  let f := mkFace p0 p1 p2
  { f with rotated_azimuth := correctAzimuth f.azimuth az_real az_model }

/-- MeasurementsParser.get_processed_faces (src/parser.py lines 166-192) on
an explicit list of point groups; the second component counts the logged
warnings for groups with fewer than 3 points. -/
noncomputable def getProcessedFaces :
    List (List Point) → ℝ → ℝ → List Face × Nat
  | [], _, _ => ([], 0)
  | g :: rest, az_real, az_model =>
    let acc := getProcessedFaces rest az_real az_model
    match g with
    | p0 :: p1 :: p2 :: _ => (processedFace p0 p1 p2 az_real az_model :: acc.1, acc.2)
    | _ => (acc.1, acc.2 + 1)

/-- MeasurementsParser.parse_dimensions stroke classification (src/parser.py
lines 28-41): a 3-point stroke goes to faces, a 2-point stroke goes to
edges, anything else is dropped with a logged warning (counted by the last
component). -/
def parseStrokes : List (List Point) → List (List Point) × List (List Point) × Nat
  | [] => ([], [], 0)
  | s :: rest =>
    let acc := parseStrokes rest
    if s.length = 3 then (s :: acc.1, acc.2.1, acc.2.2)
    else if s.length = 2 then (acc.1, s :: acc.2.1, acc.2.2)
    else (acc.1, acc.2.1, acc.2.2 + 1)

/-- Processing step applied by get_processed_edges to one group that passed
the length check; on shorter groups (which get_processed_edges skips) it
returns a junk edge, never used. -/
noncomputable def edgeOfGroup (g : List Point) (az_real az_model : ℝ) : Edge :=
  match g with
  | p0 :: p1 :: _ => processedEdge p0 p1 az_real az_model
  | _ => processedEdge ⟨0, 0, 0⟩ ⟨0, 0, 0⟩ az_real az_model

theorem azimuthVal_nonneg (v : Vector3D) : 0 ≤ v.azimuthVal :=
  pymod_nonneg _ (by norm_num)

theorem azimuthVal_lt_360 (v : Vector3D) : v.azimuthVal < 360 :=
  pymod_lt _ (by norm_num)

theorem canonical_z_nonneg (v : Vector3D) : 0 ≤ v.canonical.z := by
  unfold Vector3D.canonical
  split
  · simp only [Vector3D.multiplyMinus]
    linarith
  · linarith

theorem canonical_of_z_nonneg {v : Vector3D} (h : 0 ≤ v.z) :
    v.canonical = v := by
  unfold Vector3D.canonical
  rw [if_neg (not_lt.mpr h)]

theorem canonical_canonical (v : Vector3D) :
    v.canonical.canonical = v.canonical :=
  canonical_of_z_nonneg (canonical_z_nonneg v)

theorem canonical_sq_xy (v : Vector3D) :
    v.canonical.x ^ 2 + v.canonical.y ^ 2 = v.x ^ 2 + v.y ^ 2 := by
  unfold Vector3D.canonical
  split
  · simp only [Vector3D.multiplyMinus]
    ring
  · rfl

theorem length_canonical (v : Vector3D) : v.canonical.length = v.length := by
  unfold Vector3D.length Vector3D.canonical
  split
  · simp only [Vector3D.multiplyMinus]
    ring_nf
  · rfl

theorem azimuthVal_canonical (v : Vector3D) :
    v.canonical.azimuthVal = v.azimuthVal := by
  unfold Vector3D.azimuthVal
  rw [canonical_canonical]

theorem arg_mk_cos_sin {θ : ℝ} (hθ : θ ∈ Set.Ioc (-π) π) :
    Complex.arg ⟨Real.cos θ, Real.sin θ⟩ = θ := by
  rw [Complex.mk_eq_add_mul_I, Complex.ofReal_cos, Complex.ofReal_sin]
  exact Complex.arg_cos_add_sin_mul_I hθ

theorem arg_mk_smul {h x y : ℝ} (hh : 0 < h) :
    Complex.arg ⟨h * x, h * y⟩ = Complex.arg ⟨x, y⟩ := by
  have key : (⟨h * x, h * y⟩ : ℂ) = (h : ℂ) * ⟨x, y⟩ := by
    apply Complex.ext <;>
      simp [Complex.mul_re, Complex.mul_im]
  rw [key, Complex.arg_real_mul _ hh]

theorem azimuth_of_cis {az : ℝ} (h0 : 0 ≤ az) (h1 : az < 360) :
    pymod (rad2deg (Complex.arg
      ⟨Real.cos (deg2rad az), Real.sin (deg2rad az)⟩)) 360 = az := by
  have hpi := Real.pi_pos
  have hθ0 : 0 ≤ deg2rad az := by
    unfold deg2rad
    positivity
  have hθ2 : deg2rad az < 2 * π := by
    unfold deg2rad
    rw [div_lt_iff₀ (by norm_num : (0:ℝ) < 180)]
    nlinarith
  by_cases hle : deg2rad az ≤ π
  · rw [arg_mk_cos_sin ⟨by linarith, hle⟩, rad2deg_deg2rad]
    exact pymod_eq_self h0 h1
  · push_neg at hle
    have hcos : Real.cos (deg2rad az) = Real.cos (deg2rad az - 2 * π) :=
      (Real.cos_sub_two_pi _).symm
    have hsin : Real.sin (deg2rad az) = Real.sin (deg2rad az - 2 * π) :=
      (Real.sin_sub_two_pi _).symm
    rw [hcos, hsin, arg_mk_cos_sin ⟨by linarith, by linarith⟩]
    have hdeg : rad2deg (deg2rad az - 2 * π) = az - 360 := by
      unfold rad2deg deg2rad
      field_simp
      ring
    rw [hdeg, pymod_sub_cycle az (by norm_num : (360:ℝ) ≠ 0),
      pymod_eq_self h0 h1]

theorem arg_mk_one_one : Complex.arg ⟨1, 1⟩ = π / 4 := by
  have hpi := Real.pi_pos
  have h2 : (0:ℝ) < Real.sqrt 2 := Real.sqrt_pos.mpr (by norm_num)
  have hss : Real.sqrt 2 * Real.sqrt 2 = 2 :=
    Real.mul_self_sqrt (by norm_num)
  have key : (⟨1, 1⟩ : ℂ) =
      ⟨Real.sqrt 2 * Real.cos (π / 4), Real.sqrt 2 * Real.sin (π / 4)⟩ := by
    apply Complex.ext <;>
      simp [Real.cos_pi_div_four, Real.sin_pi_div_four] <;>
      nlinarith
  rw [key, arg_mk_smul h2, arg_mk_cos_sin ⟨by linarith, by linarith⟩]

theorem correctAzimuth_eq (raw az_real az_model : ℝ) :
    correctAzimuth raw az_real az_model =
      if 360 ≤ raw + calibrationDelta az_real az_model
      then raw + calibrationDelta az_real az_model - 360
      else if raw + calibrationDelta az_real az_model < 0
        then raw + calibrationDelta az_real az_model + 360
        else raw + calibrationDelta az_real az_model := rfl

theorem calibrationDelta_mem {az_real az_model : ℝ}
    (h : -360 ≤ az_real - az_model) :
    0 ≤ calibrationDelta az_real az_model ∧
      calibrationDelta az_real az_model < 360 := by
  unfold calibrationDelta
  split
  · constructor <;> linarith
  · exact ⟨pymod_nonneg _ (by norm_num), pymod_lt _ (by norm_num)⟩

theorem processedFaces_rotated (gs : List (List Point)) (az_real az_model : ℝ) :
    ∀ f ∈ (getProcessedFaces gs az_real az_model).1,
      f.rotated_azimuth = correctAzimuth f.azimuth az_real az_model := by
  induction gs with
  | nil =>
    intro f hf
    simp [getProcessedFaces] at hf
  | cons g rest ih =>
    intro f hf
    rcases g with _ | ⟨p0, g⟩
    · simp only [getProcessedFaces] at hf
      exact ih f hf
    rcases g with _ | ⟨p1, g⟩
    · simp only [getProcessedFaces] at hf
      exact ih f hf
    rcases g with _ | ⟨p2, g⟩
    · simp only [getProcessedFaces] at hf
      exact ih f hf
    · simp only [getProcessedFaces, List.mem_cons] at hf
      rcases hf with rfl | hf
      · simp [processedFace]
      · exact ih f hf

/-- C1: for calibration inputs az_real, az_model in [0, 360), the batch
delta is az_real - az_model wrapped into [0, 360) by adding 360 exactly
when the difference is negative; every processed entity gets
rotated_azimuth = raw azimuth + delta, reduced by 360 when the sum reaches
360; with az_real = 30 and az_model = 350 the delta is 40 and a raw
azimuth of 350 is rotated to 30; get_processed_faces stores exactly this
corrected value on every face it returns. -/
theorem azimuth_correction_batch (az_real az_model : ℝ)
    (h1 : 0 ≤ az_real) (h2 : az_real < 360)
    (h3 : 0 ≤ az_model) (h4 : az_model < 360) :
    calibrationDelta az_real az_model =
      (if az_real - az_model < 0 then az_real - az_model + 360
       else az_real - az_model) ∧
    (∀ a, 0 ≤ a →
      correctAzimuth a az_real az_model =
        if 360 ≤ a + calibrationDelta az_real az_model
        then a + calibrationDelta az_real az_model - 360
        else a + calibrationDelta az_real az_model) ∧
    calibrationDelta 30 350 = 40 ∧
    correctAzimuth 350 30 350 = 30 ∧
    (∀ gs f, f ∈ (getProcessedFaces gs az_real az_model).1 →
      f.rotated_azimuth = correctAzimuth f.azimuth az_real az_model) := by
  have hdelta40 : calibrationDelta 30 350 = 40 := by
    unfold calibrationDelta
    rw [if_pos (by norm_num : (30:ℝ) - 350 < 0)]
    norm_num
  refine ⟨?_, ?_, hdelta40, ?_, ?_⟩
  · unfold calibrationDelta
    by_cases hneg : az_real - az_model < 0
    · rw [if_pos hneg, if_pos hneg]
    · rw [if_neg hneg, if_neg hneg,
        pymod_eq_self (by linarith [not_lt.mp hneg]) (by linarith)]
  · intro a ha
    obtain ⟨hd0, _⟩ := calibrationDelta_mem
      (show -360 ≤ az_real - az_model by linarith)
    rw [correctAzimuth_eq]
    by_cases hge : 360 ≤ a + calibrationDelta az_real az_model
    · rw [if_pos hge, if_pos hge]
    · rw [if_neg hge, if_neg hge,
        if_neg (show ¬a + calibrationDelta az_real az_model < 0 by linarith)]
  · rw [correctAzimuth_eq, hdelta40]
    norm_num
  · intro gs f hf
    exact processedFaces_rotated gs az_real az_model f hf

theorem azimuth_correction_batch_witness :
    calibrationDelta 30 350 = 40 ∧ correctAzimuth 350 30 350 = 30 :=
  ⟨(azimuth_correction_batch 30 350 (by norm_num) (by norm_num)
      (by norm_num) (by norm_num)).2.2.1,
   (azimuth_correction_batch 30 350 (by norm_num) (by norm_num)
      (by norm_num) (by norm_num)).2.2.2.1⟩

/-- C2 counterexample: the claim ranges over all real calibration inputs,
but with az_real = 0, az_model = 1000 and raw azimuth 0 the code computes
delta = -1000 + 360 = -640 and rotated_azimuth = -640 + 360 = -280, which
is not in [0, 360). -/
theorem correct_out_of_range_counterexample :
    correctAzimuth 0 0 1000 = -280 ∧ correctAzimuth 0 0 1000 < 0 := by
  have h : calibrationDelta 0 1000 = -640 := by
    unfold calibrationDelta
    rw [if_pos (by norm_num : (0:ℝ) - 1000 < 0)]
    norm_num
  constructor <;> rw [correctAzimuth_eq, h] <;> norm_num

theorem calibrationDelta_lb {az_real az_model : ℝ}
    (h : -720 ≤ az_real - az_model) :
    -360 ≤ calibrationDelta az_real az_model ∧
      calibrationDelta az_real az_model < 360 := by
  unfold calibrationDelta
  split
  · constructor <;> linarith
  · refine ⟨?_, pymod_lt _ (by norm_num)⟩
    have := pymod_nonneg (az_real - az_model) (show (0:ℝ) < 360 by norm_num)
    linarith

/-- C2 (amended): for every raw azimuth a in [0, 360) and calibration
inputs whose difference az_real - az_model is at least -720 (in particular
for az_real, az_model in [0, 360)), the azimuth-correction computation
returns a rotated azimuth in [0, 360): a single added 360 keeps the delta
at least -360, and the final rot < 0 branch absorbs one such turn; below
a difference of -720 one addition of 360 is not enough, as the
counterexample shows. -/
theorem correct_mem_Ico (a az_real az_model : ℝ)
    (h0 : 0 ≤ a) (h1 : a < 360) (hd : -720 ≤ az_real - az_model) :
    0 ≤ correctAzimuth a az_real az_model ∧
      correctAzimuth a az_real az_model < 360 := by
  obtain ⟨hd0, hd1⟩ := calibrationDelta_lb hd
  rw [correctAzimuth_eq]
  by_cases hge : 360 ≤ a + calibrationDelta az_real az_model
  · rw [if_pos hge]
    constructor <;> linarith
  · rw [if_neg hge]
    by_cases hlt : a + calibrationDelta az_real az_model < 0
    · rw [if_pos hlt]
      constructor <;> linarith
    · rw [if_neg hlt]
      exact ⟨not_lt.mp hlt, not_le.mp hge⟩

theorem correct_mem_Ico_witness :
    0 ≤ correctAzimuth 10 0 500 ∧ correctAzimuth 10 0 500 < 360 :=
  correct_mem_Ico 10 0 500 (by norm_num) (by norm_num) (by norm_num)

/-- C3: zero calibration delta is the identity: for every raw azimuth a in
[0, 360) and every real x, correcting with az_real = x and az_model = x
returns a unchanged. -/
theorem correct_zero_delta_identity (a x : ℝ) (h0 : 0 ≤ a) (h1 : a < 360) :
    correctAzimuth a x x = a := by
  have hdelta : calibrationDelta x x = 0 := by
    unfold calibrationDelta
    rw [sub_self, if_neg (lt_irrefl 0),
      pymod_eq_self le_rfl (by norm_num : (0:ℝ) < 360)]
  rw [correctAzimuth_eq, hdelta, add_zero,
    if_neg (not_le.mpr h1), if_neg (not_lt.mpr h0)]

theorem correct_zero_delta_identity_witness :
    correctAzimuth 123.5 (-77) (-77) = 123.5 :=
  correct_zero_delta_identity 123.5 (-77) (by norm_num) (by norm_num)

theorem getProcessedEdges_fst_eq (gs : List (List Point)) (az_real az_model : ℝ) :
    (getProcessedEdges gs az_real az_model).1 =
      (gs.filter fun g => decide (2 ≤ g.length)).map
        fun g => edgeOfGroup g az_real az_model := by
  induction gs with
  | nil => simp [getProcessedEdges]
  | cons g rest ih =>
    rcases g with _ | ⟨p0, g⟩
    · simpa [getProcessedEdges] using ih
    rcases g with _ | ⟨p1, g⟩
    · simpa [getProcessedEdges] using ih
    · simp only [getProcessedEdges, List.filter_cons, List.length_cons,
        decide_eq_true_eq]
      rw [if_pos (by omega : 2 ≤ g.length + 1 + 1)]
      simp [edgeOfGroup, ih]

theorem getProcessedEdges_snd_eq (gs : List (List Point)) (az_real az_model : ℝ) :
    (getProcessedEdges gs az_real az_model).2 =
      (gs.filter fun g => decide (g.length < 2)).length := by
  induction gs with
  | nil => simp [getProcessedEdges]
  | cons g rest ih =>
    rcases g with _ | ⟨p0, g⟩
    · simp [getProcessedEdges, ih]
    rcases g with _ | ⟨p1, g⟩
    · simp [getProcessedEdges, ih]
    · simp only [getProcessedEdges, List.filter_cons, List.length_cons,
        decide_eq_true_eq]
      rw [if_neg (by omega : ¬g.length + 1 + 1 < 2)]
      exact ih

/-- C4 counterexample: get_processed_edges applied to a list holding one
2-point group and one 4-point group returns two Edges and logs no warning:
the 4-point group passes the at-least-two check and contributes an Edge
built from its first two points, so the batch does not yield exactly one
Edge and does not skip the 4-point group. -/
theorem batch_four_point_group_counterexample :
    (getProcessedEdges
      [[⟨0, 0, 0⟩, ⟨1, 0, 0⟩], [⟨2, 0, 0⟩, ⟨3, 0, 0⟩, ⟨4, 0, 0⟩, ⟨5, 0, 0⟩]]
      0 0).1.length = 2 ∧
    (getProcessedEdges
      [[⟨0, 0, 0⟩, ⟨1, 0, 0⟩], [⟨2, 0, 0⟩, ⟨3, 0, 0⟩, ⟨4, 0, 0⟩, ⟨5, 0, 0⟩]]
      0 0).2 = 0 := by
  constructor <;> simp [getProcessedEdges]

/-- C4 (amended): a 4-point group is not skipped by get_processed_edges:
every group with at least two points contributes an Edge built from its
first two points, so a list with one 2-point group and one 4-point group
yields two Edges there, in input order; it is the upstream stroke parser
that discards a 4-point stroke with a logged warning, so the
parse-then-process pipeline yields exactly one Edge; get_processed_edges
warns about and skips exactly the groups with fewer than two points, and
its output order follows the input order. -/
theorem batch_edges_two_and_four_point (A B C D E F : Point)
    (az_real az_model : ℝ) :
    parseStrokes [[A, B], [C, D, E, F]] = ([], [[A, B]], 1) ∧
    (getProcessedEdges [[A, B]] az_real az_model).1 =
      [processedEdge A B az_real az_model] ∧
    (getProcessedEdges [[A, B], [C, D, E, F]] az_real az_model).1 =
      [processedEdge A B az_real az_model,
       processedEdge C D az_real az_model] ∧
    (∀ gs, (getProcessedEdges gs az_real az_model).1 =
      (gs.filter fun g => decide (2 ≤ g.length)).map
        fun g => edgeOfGroup g az_real az_model) ∧
    (∀ gs, (getProcessedEdges gs az_real az_model).2 =
      (gs.filter fun g => decide (g.length < 2)).length) := by
  refine ⟨?_, ?_, ?_, ?_, ?_⟩
  · simp [parseStrokes]
  · simp [getProcessedEdges]
  · simp [getProcessedEdges]
  · intro gs
    exact getProcessedEdges_fst_eq gs az_real az_model
  · intro gs
    exact getProcessedEdges_snd_eq gs az_real az_model

/-- C5: evaluation of Point.rotated at the failing input: with
p = (3, 4, 7), center = (3, 4, 0) and azimuth 0 the code returns
(0, 0, 7), not the claimed (3 + 1*... ) center-translated point
(3, 4, 7): the radial offset is taken from the center distance but the
center coordinates are never added back. -/
theorem rotated_ignores_center_at_input :
    Point.rotated ⟨3, 4, 7⟩ ⟨3, 4, 0⟩ 0 = (⟨0, 0, 7⟩ : Point) ∧
    (⟨0, 0, 7⟩ : Point) ≠ (⟨3, 4, 7⟩ : Point) := by
  constructor
  · unfold Point.rotated
    norm_num [Point.mk.injEq, Real.sqrt_zero]
  · simp [Point.mk.injEq]

/-- C6: Vector3D.azimuth leaves the vector negated exactly when its z
component was negative, returns atan2(x, y) of that state converted to
degrees and wrapped into [0, 360), and the azimuth of (1, 0, 0) is 90
degrees. -/
theorem azimuth_canonicalize_and_value (v : Vector3D) :
    v.canonical = (if v.z < 0 then v.multiplyMinus else v) ∧
    v.azimuthVal = pymod (rad2deg (atan2 v.canonical.x v.canonical.y)) 360 ∧
    0 ≤ v.azimuthVal ∧ v.azimuthVal < 360 ∧
    Vector3D.azimuthVal ⟨1, 0, 0⟩ = 90 := by
  refine ⟨rfl, rfl, azimuthVal_nonneg v, azimuthVal_lt_360 v, ?_⟩
  unfold Vector3D.azimuthVal
  rw [canonical_of_z_nonneg le_rfl]
  unfold atan2
  have hI : (⟨(0:ℝ), (1:ℝ)⟩ : ℂ) = Complex.I := by
    apply Complex.ext <;> simp
  rw [hI, Complex.arg_I]
  have h90 : rad2deg (π / 2) = 90 := by
    unfold rad2deg
    field_simp
    ring
  rw [h90, pymod_eq_self (by norm_num) (by norm_num)]

/-- C7: the ab_vector of a Face over ordered points P1, P2, P3 equals the
cross product of P2 - P1 and P3 - P1 (the two constructor arguments are
each negated, and the signs cancel), the area is half the length of that
vector, and the Face over (0,0,0), (1,0,0), (0,1,0) has area 1/2. -/
theorem face_ab_cross_and_area (p1 p2 p3 : Point) :
    abVector p1 p2 p3 =
      (Vector3D.ofPoints p1 p2).cross (Vector3D.ofPoints p1 p3) ∧
    (mkFace p1 p2 p3).area = (abVector p1 p2 p3).length / 2 ∧
    (mkFace ⟨0, 0, 0⟩ ⟨1, 0, 0⟩ ⟨0, 1, 0⟩).area = 1 / 2 := by
  refine ⟨?_, ?_, ?_⟩
  · unfold abVector Vector3D.ofPoints Vector3D.cross
    simp only [Vector3D.mk.injEq]
    refine ⟨by ring, by ring, by ring⟩
  · simp only [mkFace]
    rw [length_canonical]
  · have hab : abVector ⟨0, 0, 0⟩ ⟨1, 0, 0⟩ ⟨0, 1, 0⟩ =
        (⟨0, 0, 1⟩ : Vector3D) := by
      unfold abVector Vector3D.ofPoints Vector3D.cross
      norm_num
    simp only [mkFace]
    rw [hab, canonical_of_z_nonneg (by norm_num), Vector3D.length]
    norm_num

/-- C8: the dip of every Vector3D lies in [0, 180] degrees: the atan2 of
the non-negative horizontal length against z gives an angle in [0, pi]. -/
theorem dip_range (v : Vector3D) : 0 ≤ v.dipVal ∧ v.dipVal ≤ 180 := by
  unfold Vector3D.dipVal atan2 rad2deg
  have hpi := Real.pi_pos
  have harg0 : 0 ≤ Complex.arg ⟨v.z, Real.sqrt (v.x ^ 2 + v.y ^ 2)⟩ :=
    Complex.arg_nonneg_iff.mpr (Real.sqrt_nonneg _)
  have harg1 : Complex.arg ⟨v.z, Real.sqrt (v.x ^ 2 + v.y ^ 2)⟩ ≤ π :=
    Complex.arg_le_pi _
  constructor
  · exact div_nonneg (mul_nonneg harg0 (by norm_num)) hpi.le
  · rw [div_le_iff₀ hpi]
    nlinarith

/-- C9: an Edge over two coincident points is a degraded zero-measurement
record, not a failure: its length is 0 and its azimuth is the
zero-vector-derived 0; and degrees_with returns 0 on zero-length input
instead of propagating a math-domain failure. -/
theorem degenerate_edge_and_angle (p : Point) :
    (mkEdge p p).length = 0 ∧ (mkEdge p p).azimuth = 0 ∧
    (∀ a b : Vector3D, a.length = 0 → a.degreesWith b = 0) := by
  have ha0 : Vector3D.ofPoints p p = (⟨0, 0, 0⟩ : Vector3D) := by
    unfold Vector3D.ofPoints
    norm_num
  refine ⟨?_, ?_, ?_⟩
  · simp only [mkEdge]
    rw [ha0, Vector3D.length]
    norm_num
  · simp only [mkEdge]
    rw [ha0]
    unfold Vector3D.azimuthVal
    rw [canonical_of_z_nonneg le_rfl]
    unfold atan2
    have h0 : (⟨(0:ℝ), (0:ℝ)⟩ : ℂ) = 0 := by
      apply Complex.ext <;> simp
    rw [h0, Complex.arg_zero, rad2deg_zero,
      pymod_eq_self le_rfl (by norm_num)]
  · intro a b h
    simp only [Vector3D.degreesWith]
    rw [h, zero_mul, if_pos rfl]

theorem degenerate_edge_and_angle_witness :
    (mkEdge ⟨1, 2, 3⟩ ⟨1, 2, 3⟩).length = 0 ∧
    Vector3D.degreesWith ⟨0, 0, 0⟩ ⟨1, 1, 1⟩ = 0 := by
  have h := degenerate_edge_and_angle ⟨1, 2, 3⟩
  refine ⟨h.1, h.2.2 ⟨0, 0, 0⟩ ⟨1, 1, 1⟩ ?_⟩
  rw [Vector3D.length]
  norm_num

theorem canonical_of_z_neg {v : Vector3D} (h : v.z < 0) :
    v.canonical = v.multiplyMinus := by
  unfold Vector3D.canonical
  rw [if_pos h]

theorem canonical_neg_mk {L s c : ℝ} (hL : 0 < L) :
    (⟨-L * s, -L * c, -L⟩ : Vector3D).canonical = ⟨L * s, L * c, L⟩ := by
  have hz : (⟨-L * s, -L * c, -L⟩ : Vector3D).z < 0 := by
    show -L < 0
    linarith
  rw [canonical_of_z_neg hz]
  simp only [Vector3D.multiplyMinus, Vector3D.mk.injEq]
  refine ⟨by ring, by ring, by ring⟩

theorem azimuthVal_neg_mk {L az : ℝ} (hL : 0 < L) (h0 : 0 ≤ az)
    (h1 : az < 360) :
    Vector3D.azimuthVal
      ⟨-L * Real.sin (deg2rad az), -L * Real.cos (deg2rad az), -L⟩ = az := by
  unfold Vector3D.azimuthVal
  rw [canonical_neg_mk hL]
  show pymod (rad2deg (atan2 (L * Real.sin (deg2rad az))
    (L * Real.cos (deg2rad az)))) 360 = az
  unfold atan2
  rw [arg_mk_smul hL]
  exact azimuth_of_cis h0 h1

theorem dipVal_pos_mk {L az : ℝ} (hL : 0 < L) :
    Vector3D.dipVal
      ⟨L * Real.sin (deg2rad az), L * Real.cos (deg2rad az), L⟩ = 45 := by
  unfold Vector3D.dipVal
  show rad2deg (atan2 (Real.sqrt ((L * Real.sin (deg2rad az)) ^ 2 +
    (L * Real.cos (deg2rad az)) ^ 2)) L) = 45
  have hsq : (L * Real.sin (deg2rad az)) ^ 2 +
      (L * Real.cos (deg2rad az)) ^ 2 = L ^ 2 := by
    have h1 := Real.sin_sq_add_cos_sq (deg2rad az)
    linear_combination L ^ 2 * h1
  rw [hsq, Real.sqrt_sq hL.le]
  unfold atan2
  have hLL : (⟨L, L⟩ : ℂ) = ⟨L * 1, L * 1⟩ := by norm_num
  rw [hLL, arg_mk_smul hL, arg_mk_one_one]
  unfold rad2deg
  have hpi := Real.pi_ne_zero
  field_simp
  ring

theorem edge2face_transform_fields {v : Vector3D}
    (hpos : 0 < v.x ^ 2 + v.y ^ 2) :
    v.canonical.edge2faceRun.azimuthVal = v.azimuthVal ∧
    v.canonical.edge2faceRun.canonical.dipVal = 45 := by
  have hL : 0 < Real.sqrt (v.x ^ 2 + v.y ^ 2) := Real.sqrt_pos.mpr hpos
  have hrun : v.canonical.edge2faceRun =
      ⟨-Real.sqrt (v.x ^ 2 + v.y ^ 2) * Real.sin (deg2rad v.azimuthVal),
       -Real.sqrt (v.x ^ 2 + v.y ^ 2) * Real.cos (deg2rad v.azimuthVal),
       -Real.sqrt (v.x ^ 2 + v.y ^ 2)⟩ := by
    unfold Vector3D.edge2faceRun
    simp only [canonical_canonical, azimuthVal_canonical, canonical_sq_xy]
  constructor
  · rw [hrun]
    exact azimuthVal_neg_mk hL (azimuthVal_nonneg v) (azimuthVal_lt_360 v)
  · rw [hrun, canonical_neg_mk hL]
    exact dipVal_pos_mk hL

/-- C10: for every Edge whose two endpoints differ in their x-y
projection, the fields captured after the edge2face transform satisfy
edge_azimuth = azimuth (the pre-transform azimuth) and edge_dip = 45
degrees exactly: edge2face writes a vector whose horizontal length and
negative z component are both the horizontal extent of the edge, and the
following azimuth call negates it back. -/
theorem edge_transform_azimuth_dip (p1 p2 : Point)
    (h : p2.x ≠ p1.x ∨ p2.y ≠ p1.y) :
    (mkEdge p1 p2).edge_azimuth = (mkEdge p1 p2).azimuth ∧
    (mkEdge p1 p2).edge_dip = 45 := by
  have hpos : 0 < (Vector3D.ofPoints p1 p2).x ^ 2 +
      (Vector3D.ofPoints p1 p2).y ^ 2 := by
    rcases h with hx | hy
    · have h1 : (Vector3D.ofPoints p1 p2).x ≠ 0 := sub_ne_zero.mpr hx
      have h2 : 0 < (Vector3D.ofPoints p1 p2).x ^ 2 := sq_pos_of_ne_zero h1
      nlinarith [sq_nonneg (Vector3D.ofPoints p1 p2).y]
    · have h1 : (Vector3D.ofPoints p1 p2).y ≠ 0 := sub_ne_zero.mpr hy
      have h2 : 0 < (Vector3D.ofPoints p1 p2).y ^ 2 := sq_pos_of_ne_zero h1
      nlinarith [sq_nonneg (Vector3D.ofPoints p1 p2).x]
  have hfields := edge2face_transform_fields hpos
  simp only [mkEdge]
  exact ⟨hfields.1, hfields.2⟩

theorem edge_transform_azimuth_dip_witness :
    (mkEdge ⟨0, 0, 0⟩ ⟨3, 4, 5⟩).edge_azimuth =
      (mkEdge ⟨0, 0, 0⟩ ⟨3, 4, 5⟩).azimuth ∧
    (mkEdge ⟨0, 0, 0⟩ ⟨3, 4, 5⟩).edge_dip = 45 :=
  edge_transform_azimuth_dip ⟨0, 0, 0⟩ ⟨3, 4, 5⟩ (Or.inl (by norm_num))

end ScientiaJoints
